import Mathlib

/-!
Shallow embedding of the staged-file command planner (pre-commit hook
dispatcher).  The source builds a `CommandPlan` — an ordered list of shell
command strings — from the list of staged file paths: it classifies the
paths into extension buckets with `micromatch` glob groups, rewrites each
matched path by replacing the first occurrence of the process working
directory with "." (JS `String.prototype.replace` with a string search
replaces the first occurrence only), and conditionally appends five
commands (cargo fmt, cargo check, prettier, tsc, eslint).

The ambient `process.cwd()` is made an explicit `cwd : String` parameter.
Path-level operations are carried out on `List Char` so that every
definition evaluates by `decide`/`rfl` on concrete inputs.
-/

namespace Redmium

/-- Split a character list on `'/'` separators into path segments, with the
same semantics as splitting a string on `"/"` (an empty input gives one
empty segment; separators at the ends give empty segments). -/
def splitSeg : List Char → List (List Char)
  | [] => [[]]
  | c :: cs =>
    if c = '/' then [] :: splitSeg cs
    else
      match splitSeg cs with
      | [] => [[c]]
      | s :: rest => (c :: s) :: rest

/-- Whether a path segment begins with a dot.  Glob wildcards do not match
dot segments under micromatch's default `dot:false` option. -/
def startsWithDot : List Char → Bool
  | '.' :: _ => true
  | _ => false

/-- Basename part of the glob `*.{e1,...,en}`: the basename must not begin
with a dot and must end in a dot followed by one of the extensions. -/
def matchesBase (exts : List String) (base : List Char) : Bool :=
  !startsWithDot base && exts.any fun e => List.isSuffixOf ('.' :: e.data) base

/-- picomatch ignores one leading `./` on the input string. -/
def stripDotSlash : List Char → List Char
  | '.' :: '/' :: rest => rest
  | l => l

/-- Match of a path against the glob `**/*.{e1,...,en}` under micromatch's
default options: `**/` spans any chain of non-dot directory segments,
including none, and `*.{…}` constrains the basename. -/
def matchesGlob (exts : List String) (path : String) : Bool :=
  let segs := splitSeg (stripDotSlash path.data)
  segs.dropLast.all (fun s => !startsWithDot s) && matchesBase exts (segs.getLast?.getD [])

/-- micromatch accumulates its matches into a JS `Set`, so a path occurring
several times is kept only at its first occurrence. -/
def uniqueAux (seen : List String) : List String → List String
  | [] => []
  | x :: xs => if x ∈ seen then uniqueAux seen xs else x :: uniqueAux (x :: seen) xs

/-- `micromatch(files, patterns)`: for each pattern group in order, every
file of the list matching it is collected, in list order, first occurrence
kept.  A pattern `**/*.{e1,...,en}` is represented by its extension list. -/
def micromatch (files : List String) (patterns : List (List String)) : List String :=
  uniqueAux [] ((patterns.map (fun exts => files.filter (matchesGlob exts))).flatten)

/-- JS `String.prototype.replace` with a plain-string search pattern:
replaces only the first occurrence; scanning an empty pattern matches at
position 0, and a pattern that never occurs leaves the input unchanged. -/
def replaceFirstAux (pat repl : List Char) : List Char → List Char
  | [] => if pat.isEmpty then repl else []
  | c :: cs =>
    if pat.isPrefixOf (c :: cs) then repl ++ (c :: cs).drop pat.length
    else c :: replaceFirstAux pat repl cs

/-- `s.replace(pat, repl)` in the JS sense (first occurrence only). -/
def jsReplaceFirst (s pat repl : String) : String :=
  String.mk (replaceFirstAux pat.data repl.data s.data)

/-- Whether `pat` occurs as a contiguous run anywhere in `l`. -/
def occursIn (pat : List Char) : List Char → Bool
  | [] => pat.isEmpty
  | c :: cs => pat.isPrefixOf (c :: cs) || occursIn pat cs

/-- `getFilesForPatterns`: the files matching the glob patterns, each with
the first occurrence of the working directory replaced by ".". -/
def getFilesForPatterns (cwd : String) (files : List String)
    (patterns : List (List String)) : List String :=
  (micromatch files patterns).map (fun path => jsReplaceFirst path cwd ".")

/-- The `dataFiles` bucket: `**/*.{json,yaml}`. -/
def dataFiles (cwd : String) (stagedFiles : List String) : List String :=
  getFilesForPatterns cwd stagedFiles [["json", "yaml"]]

/-- The `htmlFiles` bucket: `**/*.html`. -/
def htmlFiles (cwd : String) (stagedFiles : List String) : List String :=
  getFilesForPatterns cwd stagedFiles [["html"]]

/-- The `rustFiles` bucket: `**/*.rs`. -/
def rustFiles (cwd : String) (stagedFiles : List String) : List String :=
  getFilesForPatterns cwd stagedFiles [["rs"]]

/-- The `typescriptFiles` bucket: `**/*.{ts,tsx}`. -/
def typescriptFiles (cwd : String) (stagedFiles : List String) : List String :=
  getFilesForPatterns cwd stagedFiles [["ts", "tsx"]]

/-- The `javascriptFiles` bucket: `**/*.{js,cjs,mjs}`. -/
def javascriptFiles (cwd : String) (stagedFiles : List String) : List String :=
  getFilesForPatterns cwd stagedFiles [["js", "cjs", "mjs"]]

/-- `filesToEslint = [...typescriptFiles, ...javascriptFiles]`. -/
def filesToEslint (cwd : String) (stagedFiles : List String) : List String :=
  typescriptFiles cwd stagedFiles ++ javascriptFiles cwd stagedFiles

/-- `filesToPrettify = [...dataFiles, ...htmlFiles, ...typescriptFiles,
...javascriptFiles]`. -/
def filesToPrettify (cwd : String) (stagedFiles : List String) : List String :=
  dataFiles cwd stagedFiles ++ htmlFiles cwd stagedFiles
    ++ typescriptFiles cwd stagedFiles ++ javascriptFiles cwd stagedFiles

/-- The systems-language format command. -/
def cargoFmtCmd : String := "cargo fmt --manifest-path=./src-tauri/Cargo.toml"

/-- The systems-language compile-check command. -/
def cargoCheckCmd : String :=
  "cargo check --manifest-path=./src-tauri/Cargo.toml --color=always"

/-- The formatter invocation: all format targets as space-joined args. -/
def prettierCmd (cwd : String) (stagedFiles : List String) : String :=
  "pnpm prettier --write " ++ String.intercalate " " (filesToPrettify cwd stagedFiles)

/-- The type-check command (no file arguments). -/
def tscCmd : String := "pnpm tsc --pretty -p ./tsconfig.json"

/-- The lint invocation: all lint targets as space-joined args. -/
def eslintCmd (cwd : String) (stagedFiles : List String) : String :=
  "pnpm eslint " ++ String.intercalate " " (filesToEslint cwd stagedFiles)

/-- `processStagedFiles`: the CommandPlan.  Each `commands.push` guarded by
a JS length-truthiness test becomes a conditional singleton/pair append. -/
def processStagedFiles (cwd : String) (stagedFiles : List String) : List String :=
  (if (rustFiles cwd stagedFiles).length ≠ 0 then [cargoFmtCmd, cargoCheckCmd] else [])
    ++ (if (filesToPrettify cwd stagedFiles).length ≠ 0
        then [prettierCmd cwd stagedFiles] else [])
    ++ (if (typescriptFiles cwd stagedFiles).length ≠ 0 then [tscCmd] else [])
    ++ (if (filesToEslint cwd stagedFiles).length ≠ 0
        then [eslintCmd cwd stagedFiles] else [])

/-! ### Helper lemmas -/

/-- Two strings that differ within their first 12 characters differ. -/
theorem ne_of_take12_ne {a b : String} (h : a.data.take 12 ≠ b.data.take 12) :
    a ≠ b :=
  fun e => h (e ▸ rfl)

theorem take12_prettierCmd (cwd : String) (staged : List String) :
    (prettierCmd cwd staged).data.take 12 = "pnpm prettie".data := by
  rw [prettierCmd, String.data_append, List.take_append_of_le_length (by decide)]
  decide

theorem take12_eslintCmd (cwd : String) (staged : List String) :
    (eslintCmd cwd staged).data.take 12 = "pnpm eslint ".data := by
  rw [eslintCmd, String.data_append, List.take_append_of_le_length (by decide)]
  decide

theorem cargoFmt_ne_cargoCheck : cargoFmtCmd ≠ cargoCheckCmd := by decide

theorem cargoFmt_ne_prettier (cwd : String) (staged : List String) :
    cargoFmtCmd ≠ prettierCmd cwd staged := by
  refine ne_of_take12_ne ?_
  rw [take12_prettierCmd]; decide

theorem cargoFmt_ne_tsc : cargoFmtCmd ≠ tscCmd := by decide

theorem cargoFmt_ne_eslint (cwd : String) (staged : List String) :
    cargoFmtCmd ≠ eslintCmd cwd staged := by
  refine ne_of_take12_ne ?_
  rw [take12_eslintCmd]; decide

theorem cargoCheck_ne_prettier (cwd : String) (staged : List String) :
    cargoCheckCmd ≠ prettierCmd cwd staged := by
  refine ne_of_take12_ne ?_
  rw [take12_prettierCmd]; decide

theorem cargoCheck_ne_tsc : cargoCheckCmd ≠ tscCmd := by decide

theorem cargoCheck_ne_eslint (cwd : String) (staged : List String) :
    cargoCheckCmd ≠ eslintCmd cwd staged := by
  refine ne_of_take12_ne ?_
  rw [take12_eslintCmd]; decide

theorem prettier_ne_tsc (cwd : String) (staged : List String) :
    prettierCmd cwd staged ≠ tscCmd := by
  refine ne_of_take12_ne ?_
  rw [take12_prettierCmd]; decide

theorem prettier_ne_eslint (c1 c2 : String) (s1 s2 : List String) :
    prettierCmd c1 s1 ≠ eslintCmd c2 s2 := by
  refine ne_of_take12_ne ?_
  rw [take12_prettierCmd, take12_eslintCmd]; decide

theorem tsc_ne_eslint (cwd : String) (staged : List String) :
    tscCmd ≠ eslintCmd cwd staged := by
  refine ne_of_take12_ne ?_
  rw [take12_eslintCmd]; decide

/-- A guarded block is a sublist of its unguarded contents. -/
theorem ite_sublist (c : Prop) [Decidable c] (l : List String) :
    List.Sublist (if c then l else []) l := by
  split
  · exact List.Sublist.refl l
  · exact List.nil_sublist l

/-- The plan is always a sublist of the full ordered five-command list. -/
theorem plan_sublist (cwd : String) (staged : List String) :
    List.Sublist (processStagedFiles cwd staged)
      [cargoFmtCmd, cargoCheckCmd, prettierCmd cwd staged, tscCmd,
       eslintCmd cwd staged] := by
  exact (((ite_sublist _ [cargoFmtCmd, cargoCheckCmd]).append
    (ite_sublist _ [prettierCmd cwd staged])).append
    (ite_sublist _ [tscCmd])).append (ite_sublist _ [eslintCmd cwd staged])

/-- Membership in a guarded block. -/
theorem mem_ite_list {c : Prop} [Decidable c] {x : String} {l : List String} :
    x ∈ (if c then l else []) ↔ c ∧ x ∈ l := by
  split <;> simp_all

/-- Membership through the first-occurrence deduplication. -/
theorem mem_uniqueAux (x : String) :
    ∀ (seen l : List String), x ∈ uniqueAux seen l ↔ x ∈ l ∧ x ∉ seen := by
  intro seen l
  induction l generalizing seen with
  | nil => simp [uniqueAux]
  | cons y ys ih =>
    rw [uniqueAux]
    by_cases hy : y ∈ seen
    · rw [if_pos hy, ih]
      constructor
      · rintro ⟨hm, hs⟩; exact ⟨List.mem_cons_of_mem _ hm, hs⟩
      · rintro ⟨hm, hs⟩
        rcases List.mem_cons.mp hm with rfl | hm'
        · exact absurd hy hs
        · exact ⟨hm', hs⟩
    · rw [if_neg hy]
      constructor
      · intro hx
        rcases List.mem_cons.mp hx with rfl | hx'
        · exact ⟨List.mem_cons_self _ _, hy⟩
        · obtain ⟨hm, hs⟩ := (ih (y :: seen)).mp hx'
          exact ⟨List.mem_cons_of_mem _ hm, fun hx2 => hs (List.mem_cons_of_mem _ hx2)⟩
      · rintro ⟨hm, hs⟩
        rcases List.mem_cons.mp hm with rfl | hm'
        · exact List.mem_cons_self _ _
        · by_cases hxy : x = y
          · subst hxy; exact List.mem_cons_self _ _
          · refine List.mem_cons_of_mem _ ((ih (y :: seen)).mpr ⟨hm', ?_⟩)
            intro hx2
            rcases List.mem_cons.mp hx2 with h1 | h2
            · exact hxy h1
            · exact hs h2

/-- A list is a Boolean prefix of itself followed by anything. -/
theorem isPrefixOf_append_self (l t : List Char) : l.isPrefixOf (l ++ t) = true := by
  induction l with
  | nil => simp [List.isPrefixOf]
  | cons c cs ih => simp [List.isPrefixOf, ih]

/-- When the pattern occurs nowhere, first-occurrence replacement is the
identity. -/
theorem replaceFirstAux_of_occurs_not (pat repl : List Char) :
    ∀ l, occursIn pat l = false → replaceFirstAux pat repl l = l := by
  intro l
  induction l with
  | nil =>
    intro h
    rw [occursIn] at h
    rw [replaceFirstAux, if_neg]
    simp_all
  | cons c cs ih =>
    intro h
    rw [occursIn, Bool.or_eq_false_iff] at h
    rw [replaceFirstAux, if_neg (by simp [h.1]), ih h.2]

/-- When the pattern is a prefix of the input, replacement happens there. -/
theorem replaceFirstAux_of_isPrefixOf (pat repl l : List Char)
    (h : pat.isPrefixOf l = true) :
    replaceFirstAux pat repl l = repl ++ l.drop pat.length := by
  cases l with
  | nil =>
    cases pat with
    | nil => simp [replaceFirstAux, List.isEmpty]
    | cons p ps => simp [List.isPrefixOf] at h
  | cons c cs => rw [replaceFirstAux, if_pos h]

/-- First-occurrence replacement rewrites exactly at the first position
where the pattern occurs, wherever that position sits. -/
theorem replaceFirstAux_first_occur (pat repl : List Char) :
    ∀ (a b : List Char),
      (∀ i, i < a.length → pat.isPrefixOf ((a ++ (pat ++ b)).drop i) = false) →
      replaceFirstAux pat repl (a ++ (pat ++ b)) = a ++ (repl ++ b) := by
  intro a
  induction a with
  | nil =>
    intro b _
    rw [List.nil_append, List.nil_append,
      replaceFirstAux_of_isPrefixOf _ _ _ (isPrefixOf_append_self pat b),
      List.drop_left]
  | cons x a' ih =>
    intro b h
    have h0 : pat.isPrefixOf ((x :: a') ++ (pat ++ b)) = false := by
      have := h 0 (by simp)
      simpa using this
    rw [List.cons_append, replaceFirstAux, if_neg (by simp_all [List.cons_append])]
    rw [ih b ?_, List.cons_append]
    intro i hi
    have := h (i + 1) (by simpa using Nat.succ_lt_succ hi)
    rw [List.cons_append, List.drop_succ_cons] at this
    exact this

/-- String level: a path not containing the pattern is left unchanged. -/
theorem jsReplaceFirst_of_not_occursIn (q pat : String)
    (h : occursIn pat.data q.data = false) : jsReplaceFirst q pat "." = q := by
  rw [jsReplaceFirst, replaceFirstAux_of_occurs_not _ _ _ h]

/-- `getFilesForPatterns` over a one-pattern group. -/
theorem getFilesForPatterns_singleton (cwd : String) (files : List String)
    (exts : List String) :
    getFilesForPatterns cwd files [exts]
      = (uniqueAux [] (files.filter (matchesGlob exts))).map
          (fun p => jsReplaceFirst p cwd ".") := by
  rw [getFilesForPatterns, micromatch]
  simp only [List.map_cons, List.map_nil, List.flatten_cons, List.flatten_nil,
    List.append_nil]

/-- A one-pattern bucket with no matching file is empty. -/
theorem bucket_eq_nil_of_no_match (cwd : String) (files : List String)
    (exts : List String) (h : ∀ f ∈ files, matchesGlob exts f = false) :
    getFilesForPatterns cwd files [exts] = [] := by
  rw [getFilesForPatterns_singleton]
  have hf : files.filter (matchesGlob exts) = [] :=
    List.filter_eq_nil_iff.mpr (by simpa using h)
  rw [hf]
  rfl

/-- Shape of membership in the plan: a command is in the plan exactly when
one of the four guarded blocks is enabled and contains it. -/
theorem mem_plan_iff (cwd : String) (staged : List String) (x : String) :
    x ∈ processStagedFiles cwd staged ↔
      ((rustFiles cwd staged ≠ [] ∧ (x = cargoFmtCmd ∨ x = cargoCheckCmd))
       ∨ (filesToPrettify cwd staged ≠ [] ∧ x = prettierCmd cwd staged)
       ∨ (typescriptFiles cwd staged ≠ [] ∧ x = tscCmd)
       ∨ (filesToEslint cwd staged ≠ [] ∧ x = eslintCmd cwd staged)) := by
  rw [processStagedFiles]
  simp only [List.mem_append, mem_ite_list, List.mem_cons, List.not_mem_nil,
    or_false, ne_eq, List.length_eq_zero, or_assoc]

/-! ### Claim theorems -/

/-- C1: for every working directory and staged-file list, each bucket's
command appears in the CommandPlan returned by `processStagedFiles` iff
that bucket is non-empty: the two cargo commands iff the rust bucket is
non-empty, the prettier command iff the format-targets bucket is
non-empty, the tsc command iff the typed-script bucket is non-empty, and
the eslint command iff the lint-targets bucket is non-empty. -/
theorem command_mem_iff_bucket_nonempty (cwd : String) (staged : List String) :
    (cargoFmtCmd ∈ processStagedFiles cwd staged ↔ rustFiles cwd staged ≠ [])
    ∧ (cargoCheckCmd ∈ processStagedFiles cwd staged ↔ rustFiles cwd staged ≠ [])
    ∧ (prettierCmd cwd staged ∈ processStagedFiles cwd staged ↔
        filesToPrettify cwd staged ≠ [])
    ∧ (tscCmd ∈ processStagedFiles cwd staged ↔ typescriptFiles cwd staged ≠ [])
    ∧ (eslintCmd cwd staged ∈ processStagedFiles cwd staged ↔
        filesToEslint cwd staged ≠ []) := by
  refine ⟨?_, ?_, ?_, ?_, ?_⟩ <;> rw [mem_plan_iff]
  · constructor
    · rintro (⟨hr, _⟩ | ⟨_, he⟩ | ⟨_, he⟩ | ⟨_, he⟩)
      · exact hr
      · exact absurd he (cargoFmt_ne_prettier cwd staged)
      · exact absurd he cargoFmt_ne_tsc
      · exact absurd he (cargoFmt_ne_eslint cwd staged)
    · intro hr
      exact Or.inl ⟨hr, Or.inl rfl⟩
  · constructor
    · rintro (⟨hr, _⟩ | ⟨_, he⟩ | ⟨_, he⟩ | ⟨_, he⟩)
      · exact hr
      · exact absurd he (cargoCheck_ne_prettier cwd staged)
      · exact absurd he cargoCheck_ne_tsc
      · exact absurd he (cargoCheck_ne_eslint cwd staged)
    · intro hr
      exact Or.inl ⟨hr, Or.inr rfl⟩
  · constructor
    · rintro (⟨_, he | he⟩ | ⟨hp, _⟩ | ⟨_, he⟩ | ⟨_, he⟩)
      · exact absurd he.symm (cargoFmt_ne_prettier cwd staged)
      · exact absurd he.symm (cargoCheck_ne_prettier cwd staged)
      · exact hp
      · exact absurd he (prettier_ne_tsc cwd staged)
      · exact absurd he (prettier_ne_eslint cwd cwd staged staged)
    · intro hp
      exact Or.inr (Or.inl ⟨hp, rfl⟩)
  · constructor
    · rintro (⟨_, he | he⟩ | ⟨_, he⟩ | ⟨ht, _⟩ | ⟨_, he⟩)
      · exact absurd he.symm cargoFmt_ne_tsc
      · exact absurd he.symm cargoCheck_ne_tsc
      · exact absurd he.symm (prettier_ne_tsc cwd staged)
      · exact ht
      · exact absurd he (tsc_ne_eslint cwd staged)
    · intro ht
      exact Or.inr (Or.inr (Or.inl ⟨ht, rfl⟩))
  · constructor
    · rintro (⟨_, he | he⟩ | ⟨_, he⟩ | ⟨_, he⟩ | ⟨hl, _⟩)
      · exact absurd he.symm (cargoFmt_ne_eslint cwd staged)
      · exact absurd he.symm (cargoCheck_ne_eslint cwd staged)
      · exact absurd he.symm (prettier_ne_eslint cwd cwd staged staged)
      · exact absurd he.symm (tsc_ne_eslint cwd staged)
      · exact hl
    · intro hl
      exact Or.inr (Or.inr (Or.inr ⟨hl, rfl⟩))

/-- C2: the plan is always an order-preserving selection from the fixed
command order cargo fmt → cargo check → prettier → tsc → eslint (absent
buckets skipped), and when the rust bucket is non-empty the two cargo
commands come first. -/
theorem commandPlan_order (cwd : String) (staged : List String) :
    List.Sublist (processStagedFiles cwd staged)
      [cargoFmtCmd, cargoCheckCmd, prettierCmd cwd staged, tscCmd,
       eslintCmd cwd staged]
    ∧ (rustFiles cwd staged ≠ [] →
        (processStagedFiles cwd staged).take 2 = [cargoFmtCmd, cargoCheckCmd]) := by
  refine ⟨plan_sublist cwd staged, fun h => ?_⟩
  rw [processStagedFiles, if_pos (fun hl => h (List.length_eq_zero.mp hl))]
  rfl

/-- Witness for C2 at a concrete rust-staging input. -/
theorem commandPlan_order_witness :
    List.Sublist (processStagedFiles "/repo" ["a.rs"])
      [cargoFmtCmd, cargoCheckCmd, prettierCmd "/repo" ["a.rs"], tscCmd,
       eslintCmd "/repo" ["a.rs"]]
    ∧ (processStagedFiles "/repo" ["a.rs"]).take 2 = [cargoFmtCmd, cargoCheckCmd] :=
  ⟨(commandPlan_order "/repo" ["a.rs"]).1,
   (commandPlan_order "/repo" ["a.rs"]).2 (by decide)⟩

/-- C6: a staged-file list none of whose paths matches any of the five glob
groups is excluded from all buckets and produces the empty plan. -/
theorem unmatched_files_empty_plan (cwd : String) (staged : List String)
    (h : ∀ f ∈ staged,
      matchesGlob ["json", "yaml"] f = false ∧ matchesGlob ["html"] f = false ∧
      matchesGlob ["rs"] f = false ∧ matchesGlob ["ts", "tsx"] f = false ∧
      matchesGlob ["js", "cjs", "mjs"] f = false) :
    processStagedFiles cwd staged = [] := by
  have hd := bucket_eq_nil_of_no_match cwd staged ["json", "yaml"]
    (fun f hf => (h f hf).1)
  have hh := bucket_eq_nil_of_no_match cwd staged ["html"]
    (fun f hf => (h f hf).2.1)
  have hr := bucket_eq_nil_of_no_match cwd staged ["rs"]
    (fun f hf => (h f hf).2.2.1)
  have ht := bucket_eq_nil_of_no_match cwd staged ["ts", "tsx"]
    (fun f hf => (h f hf).2.2.2.1)
  have hj := bucket_eq_nil_of_no_match cwd staged ["js", "cjs", "mjs"]
    (fun f hf => (h f hf).2.2.2.2)
  simp [processStagedFiles, rustFiles, dataFiles, htmlFiles, typescriptFiles,
    javascriptFiles, filesToPrettify, filesToEslint, hd, hh, hr, ht, hj]

/-- Witness for C6 at the two scenario inputs `["README.md"]` and `[]`. -/
theorem unmatched_files_empty_plan_witness :
    processStagedFiles "/repo" ["README.md"] = []
    ∧ processStagedFiles "/repo" [] = [] :=
  ⟨unmatched_files_empty_plan "/repo" ["README.md"] (by decide),
   unmatched_files_empty_plan "/repo" [] (by decide)⟩

/-- C7: planning is deterministic — two runs on equal staged-file lists
under one fixed working directory return equal CommandPlans. -/
theorem processStagedFiles_deterministic (cwd : String) (s1 s2 : List String)
    (h : s1 = s2) : processStagedFiles cwd s1 = processStagedFiles cwd s2 := by
  rw [h]

/-- Witness for C7 at a concrete repeated input. -/
theorem processStagedFiles_deterministic_witness :
    processStagedFiles "/repo" ["src/a.ts"] = processStagedFiles "/repo" ["src/a.ts"] :=
  processStagedFiles_deterministic "/repo" ["src/a.ts"] ["src/a.ts"] rfl

/-- The plan never repeats a command (helper shared by several proofs). -/
theorem plan_nodup (cwd : String) (staged : List String) :
    (processStagedFiles cwd staged).Nodup := by
  refine (plan_sublist cwd staged).nodup ?_
  simp [List.nodup_cons, cargoFmt_ne_cargoCheck, cargoFmt_ne_prettier cwd staged,
    cargoFmt_ne_tsc, cargoFmt_ne_eslint cwd staged, cargoCheck_ne_prettier cwd staged,
    cargoCheck_ne_tsc, cargoCheck_ne_eslint cwd staged, prettier_ne_tsc cwd staged,
    prettier_ne_eslint cwd cwd staged staged, tsc_ne_eslint cwd staged]

/-- C8: the CommandPlan never contains two identical command strings. -/
theorem commandPlan_nodup (cwd : String) (staged : List String) :
    (processStagedFiles cwd staged).Nodup :=
  plan_nodup cwd staged

/-- C9: glob classification and plan construction are total — for every
working directory, file list and pattern-group list they return a result. -/
theorem planner_total :
    (∀ (cwd : String) (files : List String) (patterns : List (List String)),
      ∃ r : List String, getFilesForPatterns cwd files patterns = r)
    ∧ (∀ (cwd : String) (staged : List String),
      ∃ p : List String, processStagedFiles cwd staged = p) :=
  ⟨fun _ _ _ => ⟨_, rfl⟩, fun _ _ => ⟨_, rfl⟩⟩
/-- Membership in a micromatch result: a path is kept iff it is in the file
list and matches some pattern group. -/
theorem mem_micromatch (files : List String) (patterns : List (List String))
    (q : String) :
    q ∈ micromatch files patterns ↔
      q ∈ files ∧ (patterns.any fun exts => matchesGlob exts q) = true := by
  rw [micromatch, mem_uniqueAux]
  simp only [List.not_mem_nil, not_false_iff, and_true]
  rw [List.mem_flatten]
  constructor
  · rintro ⟨l, hl, hq⟩
    obtain ⟨exts, hexts, rfl⟩ := List.mem_map.mp hl
    obtain ⟨hqf, hmatch⟩ := List.mem_filter.mp hq
    exact ⟨hqf, List.any_eq_true.mpr ⟨exts, hexts, hmatch⟩⟩
  · rintro ⟨hqf, hany⟩
    obtain ⟨exts, hexts, hmatch⟩ := List.any_eq_true.mp hany
    exact ⟨files.filter (matchesGlob exts), List.mem_map_of_mem _ hexts,
      List.mem_filter.mpr ⟨hqf, hmatch⟩⟩

/-- C3: `getFilesForPatterns` returns exactly the rewritten forms of the
input files matching at least one pattern of the group; a matched path not
containing the working directory is returned unchanged, and a matched path
with the working directory as leading prefix has that prefix replaced by a
dot. -/
theorem getFilesForPatterns_spec (cwd : String) (files : List String)
    (patterns : List (List String)) :
    (∀ p : String, p ∈ getFilesForPatterns cwd files patterns ↔
      ∃ q : String, q ∈ files ∧ (patterns.any fun exts => matchesGlob exts q) = true
        ∧ p = jsReplaceFirst q cwd ".")
    ∧ (∀ q : String, occursIn cwd.data q.data = false →
        jsReplaceFirst q cwd "." = q)
    ∧ (∀ q : String, cwd.data.isPrefixOf q.data = true →
        (jsReplaceFirst q cwd ".").data = '.' :: q.data.drop cwd.data.length) := by
  refine ⟨fun p => ?_, fun q h => jsReplaceFirst_of_not_occursIn q cwd h,
    fun q h => ?_⟩
  · rw [getFilesForPatterns, List.mem_map]
    constructor
    · rintro ⟨q, hq, rfl⟩
      obtain ⟨hqf, hany⟩ := (mem_micromatch files patterns q).mp hq
      exact ⟨q, hqf, hany, rfl⟩
    · rintro ⟨q, hqf, hany, rfl⟩
      exact ⟨q, (mem_micromatch files patterns q).mpr ⟨hqf, hany⟩, rfl⟩
  · rw [jsReplaceFirst, replaceFirstAux_of_isPrefixOf _ _ _ h]
    rfl

/-- Witness for C3 at concrete inputs: an absolute path under "/repo" is
matched and prefix-rewritten, a relative path is returned unchanged. -/
theorem getFilesForPatterns_spec_witness :
    (("./src/a.ts" : String) ∈ getFilesForPatterns "/repo" ["/repo/src/a.ts", "b.md"]
        [["ts", "tsx"]] ↔
      ∃ q : String, q ∈ ["/repo/src/a.ts", "b.md"]
        ∧ ([["ts", "tsx"]].any fun exts => matchesGlob exts q) = true
        ∧ "./src/a.ts" = jsReplaceFirst q "/repo" ".")
    ∧ jsReplaceFirst "src/b.ts" "/repo" "." = "src/b.ts"
    ∧ (jsReplaceFirst "/repo/src/a.ts" "/repo" ".").data
        = '.' :: "/repo/src/a.ts".data.drop "/repo".data.length :=
  ⟨(getFilesForPatterns_spec "/repo" ["/repo/src/a.ts", "b.md"] [["ts", "tsx"]]).1
      "./src/a.ts",
   (getFilesForPatterns_spec "/repo" ["/repo/src/a.ts", "b.md"] [["ts", "tsx"]]).2.1
      "src/b.ts" (by decide),
   (getFilesForPatterns_spec "/repo" ["/repo/src/a.ts", "b.md"] [["ts", "tsx"]]).2.2
      "/repo/src/a.ts" (by decide)⟩

/-- C10: each matched path is rewritten by replacing the first occurrence
of the working-directory string with ".", wherever that occurrence sits —
paths not containing it are unchanged, and an occurrence at a non-prefix
position is rewritten at that position. -/
theorem replace_first_occurrence_semantics (cwd : String) (files : List String)
    (patterns : List (List String)) :
    getFilesForPatterns cwd files patterns
      = (micromatch files patterns).map (fun p => jsReplaceFirst p cwd ".")
    ∧ (∀ p : String, occursIn cwd.data p.data = false →
        jsReplaceFirst p cwd "." = p)
    ∧ (∀ (p : String) (a b : List Char),
        p.data = a ++ (cwd.data ++ b) →
        (∀ i, i < a.length → cwd.data.isPrefixOf (p.data.drop i) = false) →
        (jsReplaceFirst p cwd ".").data = a ++ ('.' :: b)) := by
  refine ⟨rfl, fun p h => jsReplaceFirst_of_not_occursIn p cwd h,
    fun p a b hp hfirst => ?_⟩
  have hfst : ∀ i, i < a.length →
      cwd.data.isPrefixOf ((a ++ (cwd.data ++ b)).drop i) = false := by
    intro i hi
    have := hfirst i hi
    rwa [hp] at this
  show replaceFirstAux cwd.data ".".data p.data = a ++ ('.' :: b)
  rw [hp, replaceFirstAux_first_occur cwd.data ".".data a b hfst]
  rfl

/-- Witness for C10: "/repo" occurs mid-string in "/tmp/repo/c.ts" and is
rewritten there; "x.md" does not contain it and is unchanged. -/
theorem replace_first_occurrence_witness :
    getFilesForPatterns "/repo" ["/tmp/repo/c.ts"] [["ts", "tsx"]]
      = (micromatch ["/tmp/repo/c.ts"] [["ts", "tsx"]]).map
          (fun p => jsReplaceFirst p "/repo" ".")
    ∧ jsReplaceFirst "x.md" "/repo" "." = "x.md"
    ∧ (jsReplaceFirst "/tmp/repo/c.ts" "/repo" ".").data
        = "/tmp".data ++ ('.' :: "/c.ts".data) :=
  ⟨(replace_first_occurrence_semantics "/repo" ["/tmp/repo/c.ts"] [["ts", "tsx"]]).1,
   (replace_first_occurrence_semantics "/repo" ["/tmp/repo/c.ts"] [["ts", "tsx"]]).2.1
      "x.md" (by decide),
   (replace_first_occurrence_semantics "/repo" ["/tmp/repo/c.ts"] [["ts", "tsx"]]).2.2
      "/tmp/repo/c.ts" "/tmp".data "/c.ts".data (by decide) (by decide)⟩

/-- C5: when the format-targets bucket is non-empty the plan carries exactly
one prettier invocation, whose arguments are the data, markup, typed-script
and script buckets concatenated in that order and space-joined; likewise
the eslint invocation lists the typed-script then script buckets. -/
theorem single_formatter_and_lint (cwd : String) (staged : List String) :
    (filesToPrettify cwd staged ≠ [] →
      (processStagedFiles cwd staged).count (prettierCmd cwd staged) = 1
      ∧ prettierCmd cwd staged
          = "pnpm prettier --write " ++ String.intercalate " "
              (dataFiles cwd staged ++ htmlFiles cwd staged
                ++ typescriptFiles cwd staged ++ javascriptFiles cwd staged))
    ∧ (filesToEslint cwd staged ≠ [] →
      (processStagedFiles cwd staged).count (eslintCmd cwd staged) = 1
      ∧ eslintCmd cwd staged
          = "pnpm eslint " ++ String.intercalate " "
              (typescriptFiles cwd staged ++ javascriptFiles cwd staged)) := by
  constructor
  · intro h
    refine ⟨List.count_eq_one_of_mem (plan_nodup cwd staged) ?_, rfl⟩
    exact (mem_plan_iff cwd staged _).mpr (Or.inr (Or.inl ⟨h, rfl⟩))
  · intro h
    refine ⟨List.count_eq_one_of_mem (plan_nodup cwd staged) ?_, rfl⟩
    exact (mem_plan_iff cwd staged _).mpr (Or.inr (Or.inr (Or.inr ⟨h, rfl⟩)))

/-- Witness for C5 at the concrete staged list ["a.ts"]. -/
theorem single_formatter_and_lint_witness :
    ((processStagedFiles "/repo" ["a.ts"]).count (prettierCmd "/repo" ["a.ts"]) = 1
      ∧ prettierCmd "/repo" ["a.ts"]
          = "pnpm prettier --write " ++ String.intercalate " "
              (dataFiles "/repo" ["a.ts"] ++ htmlFiles "/repo" ["a.ts"]
                ++ typescriptFiles "/repo" ["a.ts"] ++ javascriptFiles "/repo" ["a.ts"]))
    ∧ ((processStagedFiles "/repo" ["a.ts"]).count (eslintCmd "/repo" ["a.ts"]) = 1
      ∧ eslintCmd "/repo" ["a.ts"]
          = "pnpm eslint " ++ String.intercalate " "
              (typescriptFiles "/repo" ["a.ts"] ++ javascriptFiles "/repo" ["a.ts"])) :=
  ⟨(single_formatter_and_lint "/repo" ["a.ts"]).1 (by decide),
   (single_formatter_and_lint "/repo" ["a.ts"]).2 (by decide)⟩

/-- C4 counterexample: at working directory "/repo" the staged list
["src/a.ts", "src/a.rs"] does not produce the plan the claim states — the
prettier and eslint arguments are "src/a.ts", not "./src/a.ts", because the
relative path does not contain the absolute working directory. -/
theorem scenario1_counterexample :
    processStagedFiles "/repo" ["src/a.ts", "src/a.rs"]
      ≠ [cargoFmtCmd, cargoCheckCmd, "pnpm prettier --write ./src/a.ts", tscCmd,
         "pnpm eslint ./src/a.ts"] := by
  decide

/-- C4 amended: for every working directory that does not occur inside
"src/a.ts", the staged list ["src/a.ts", "src/a.rs"] yields exactly the
five-command plan cargo fmt, cargo check, prettier on "src/a.ts", tsc,
eslint on "src/a.ts", in that order. -/
theorem scenario1_amended (cwd : String)
    (h : occursIn cwd.data "src/a.ts".data = false) :
    processStagedFiles cwd ["src/a.ts", "src/a.rs"]
      = [cargoFmtCmd, cargoCheckCmd, "pnpm prettier --write src/a.ts", tscCmd,
         "pnpm eslint src/a.ts"] := by
  have hts : typescriptFiles cwd ["src/a.ts", "src/a.rs"] = ["src/a.ts"] := by
    rw [typescriptFiles, getFilesForPatterns,
      show micromatch ["src/a.ts", "src/a.rs"] [["ts", "tsx"]] = ["src/a.ts"]
        from by decide]
    simp [jsReplaceFirst_of_not_occursIn _ _ h]
  have hrs : rustFiles cwd ["src/a.ts", "src/a.rs"]
      = [jsReplaceFirst "src/a.rs" cwd "."] := by
    rw [rustFiles, getFilesForPatterns,
      show micromatch ["src/a.ts", "src/a.rs"] [["rs"]] = ["src/a.rs"]
        from by decide]
    rfl
  have hd : dataFiles cwd ["src/a.ts", "src/a.rs"] = [] := by
    rw [dataFiles, getFilesForPatterns,
      show micromatch ["src/a.ts", "src/a.rs"] [["json", "yaml"]] = []
        from by decide]
    rfl
  have hh : htmlFiles cwd ["src/a.ts", "src/a.rs"] = [] := by
    rw [htmlFiles, getFilesForPatterns,
      show micromatch ["src/a.ts", "src/a.rs"] [["html"]] = [] from by decide]
    rfl
  have hj : javascriptFiles cwd ["src/a.ts", "src/a.rs"] = [] := by
    rw [javascriptFiles, getFilesForPatterns,
      show micromatch ["src/a.ts", "src/a.rs"] [["js", "cjs", "mjs"]] = []
        from by decide]
    rfl
  rw [processStagedFiles]
  simp only [filesToPrettify, filesToEslint, prettierCmd, eslintCmd, hts, hrs,
    hd, hh, hj, List.nil_append, List.append_nil, List.length_cons,
    List.length_nil]
  norm_num
  exact ⟨by decide, by decide⟩

/-- Witness for the amended C4 at the concrete working directory "/repo". -/
theorem scenario1_amended_witness :
    occursIn "/repo".data "src/a.ts".data = false
    ∧ processStagedFiles "/repo" ["src/a.ts", "src/a.rs"]
        = [cargoFmtCmd, cargoCheckCmd, "pnpm prettier --write src/a.ts", tscCmd,
           "pnpm eslint src/a.ts"] :=
  ⟨by decide, scenario1_amended "/repo" (by decide)⟩

end Redmium
